import Mathlib

/-!
Verification development for the cortex chunk store and rule scheduler.

The Go sources under src/chunk/chunk_store.go and src/ruler/ruler.go are
shallowly embedded: pure helpers become Lean functions, goroutine fan-out
sites become functions of the arrival-ordered lists of task results, and
calls into external collaborators (DynamoDB, S3, the chunk cache, the
scheduler queue) become oracle parameters.  Machine integers are modelled
as unbounded integers (no claim depends on overflow); Go division, which
truncates toward zero, is modelled by Int.tdiv.
-/

namespace Cortex

/-- model.Time: milliseconds since the epoch. -/
abbrev Time := Int

/-- model.Time.Unix(): milliseconds to seconds, truncating toward zero as Go does. -/
def timeUnix (t : Time) : Int := Int.tdiv t 1000

/-- secondsInHour = int64(time.Hour / time.Second). -/
def secondsInHour : Int := 3600

/-- secondsInDay = int64(24 * time.Hour / time.Second). -/
def secondsInDay : Int := 86400

/-- PeriodicTableConfig from src/chunk/chunk_store.go.  TablePeriod is kept in
seconds (the source divides TablePeriod by time.Second before using it). -/
structure PeriodicTableConfig where
  usePeriodicTables : Bool
  tablePrefix : String
  tablePeriodSeconds : Int
  periodicTableStartAtUnix : Int
deriving DecidableEq

/-- StoreConfig from src/chunk/chunk_store.go.  The S3/DynamoDB clients and the
chunk cache are external collaborators; only the presence of the cache is kept. -/
structure StoreConfig where
  bucketName : String
  tableName : String
  chunkCacheEnabled : Bool
  dailyBucketsFrom : Time
  periodic : PeriodicTableConfig
deriving DecidableEq

/-- bucketSpec from src/chunk/chunk_store.go. -/
structure BucketSpec where
  tableName : String
  bucket : String
deriving DecidableEq

/-- tableForBucket from src/chunk/chunk_store.go.  Go would fault on a zero
table period; no claim exercises that case. -/
def tableForBucket (c : StoreConfig) (bucketStart : Int) : String :=
  if c.periodic.usePeriodicTables = false ∨ bucketStart < c.periodic.periodicTableStartAtUnix then
    c.tableName
  else
    c.periodic.tablePrefix ++ toString (Int.tdiv bucketStart c.periodic.tablePeriodSeconds)

/-- firstDailyBucket, a local of bigBuckets: the day number of DailyBucketsFrom. -/
def firstDailyBucket (c : StoreConfig) : Int :=
  Int.tdiv (timeUnix c.dailyBucketsFrom) secondsInDay

/-- lastHourlyBucket, a local of bigBuckets: firstDailyBucket * 24. -/
def lastHourlyBucket (c : StoreConfig) : Int := firstDailyBucket c * 24

/-- The hourly bucket emitted by bigBuckets for hour number i. -/
def hourlyBucketSpec (c : StoreConfig) (i : Int) : BucketSpec :=
  { tableName := tableForBucket c (i * secondsInHour), bucket := toString i }

/-- The daily bucket emitted by bigBuckets for day number i. -/
def dailyBucketSpec (c : StoreConfig) (i : Int) : BucketSpec :=
  { tableName := tableForBucket c (i * secondsInDay), bucket := "d" ++ toString i }

/-- The integers lo, lo+1, ... produced by a fuelled counter; fuel makes the
recursion structural. -/
def intRangeAux : Nat → Int → List Int
  | 0, _ => []
  | n + 1, lo => lo :: intRangeAux n (lo + 1)

/-- The integers of the closed interval lo..hi, the index sequence of a Go
loop for i := lo; i <= hi; i++. -/
def intRange (lo hi : Int) : List Int := intRangeAux (hi + 1 - lo).toNat lo

/-- The first loop of bigBuckets: emit an hourly bucket per index, breaking at
the first index at or past lastHourlyBucket. -/
def hourlyLoop (c : StoreConfig) (lastH : Int) : List Int → List BucketSpec
  | [] => []
  | i :: rest =>
    if lastH ≤ i then [] else hourlyBucketSpec c i :: hourlyLoop c lastH rest

/-- The second loop of bigBuckets: emit a daily bucket per index, skipping
indexes before firstDailyBucket. -/
def dailyLoop (c : StoreConfig) (firstD : Int) : List Int → List BucketSpec
  | [] => []
  | i :: rest =>
    if i < firstD then dailyLoop c firstD rest
    else dailyBucketSpec c i :: dailyLoop c firstD rest

/-- bigBuckets from src/chunk/chunk_store.go. -/
def bigBuckets (c : StoreConfig) (fromT throughT : Time) : List BucketSpec :=
  hourlyLoop c (lastHourlyBucket c)
      (intRange (Int.tdiv (timeUnix fromT) secondsInHour)
        (Int.tdiv (timeUnix throughT) secondsInHour))
    ++ dailyLoop c (firstDailyBucket c)
      (intRange (Int.tdiv (timeUnix fromT) secondsInDay)
        (Int.tdiv (timeUnix throughT) secondsInDay))

/-- The hourly buckets as the specification words them: each hour h in
[fromHour, throughHour] with h < lastHourlyBucket. -/
def claimHourlyBuckets (c : StoreConfig) (fromT throughT : Time) : List BucketSpec :=
  ((intRange (Int.tdiv (timeUnix fromT) secondsInHour)
      (Int.tdiv (timeUnix throughT) secondsInHour)).filter
    (fun i => decide (i < lastHourlyBucket c))).map (hourlyBucketSpec c)

/-- The daily buckets as the specification words them: each day d in
[fromDay, throughDay] with d >= firstDailyBucket. -/
def claimDailyBuckets (c : StoreConfig) (fromT throughT : Time) : List BucketSpec :=
  ((intRange (Int.tdiv (timeUnix fromT) secondsInDay)
      (Int.tdiv (timeUnix throughT) secondsInDay)).filter
    (fun i => decide (firstDailyBucket c ≤ i))).map (dailyBucketSpec c)

theorem mem_intRangeAux {x : Int} : ∀ n lo, x ∈ intRangeAux n lo → lo ≤ x := by
  intro n
  induction n with
  | zero => intro lo h; simp [intRangeAux] at h
  | succ n ih =>
    intro lo h
    simp only [intRangeAux, List.mem_cons] at h
    rcases h with h | h
    · omega
    · have := ih (lo + 1) h; omega

theorem hourlyLoop_eq_filter (c : StoreConfig) (L : Int) :
    ∀ n lo, hourlyLoop c L (intRangeAux n lo)
      = ((intRangeAux n lo).filter (fun i => decide (i < L))).map (hourlyBucketSpec c) := by
  intro n
  induction n with
  | zero => intro lo; simp [intRangeAux, hourlyLoop]
  | succ n ih =>
    intro lo
    by_cases h : L ≤ lo
    · have hall : ((intRangeAux (n + 1) lo).filter (fun i => decide (i < L))) = [] := by
        apply List.filter_eq_nil_iff.mpr
        intro a ha
        have := mem_intRangeAux _ _ ha
        simp only [decide_eq_true_eq]
        omega
      simp only [intRangeAux, hourlyLoop, if_pos h]
      rw [show intRangeAux (n + 1) lo = lo :: intRangeAux n (lo + 1) from rfl] at hall
      rw [hall]
      simp
    · have hlt : lo < L := by omega
      simp only [intRangeAux, hourlyLoop, if_neg h, List.filter_cons, hlt,
        decide_eq_true_eq, if_pos, List.map_cons, List.cons.injEq, true_and]
      exact ih (lo + 1)

theorem dailyLoop_eq_filter (c : StoreConfig) (F : Int) :
    ∀ xs : List Int, dailyLoop c F xs
      = (xs.filter (fun i => decide (F ≤ i))).map (dailyBucketSpec c) := by
  intro xs
  induction xs with
  | nil => simp [dailyLoop]
  | cons i rest ih =>
    by_cases h : i < F
    · have : decide (F ≤ i) = false := by simp; omega
      simp [dailyLoop, if_pos h, List.filter_cons, this, ih]
    · have : decide (F ≤ i) = true := by simp; omega
      simp [dailyLoop, if_neg h, List.filter_cons, this, ih]

/-- A concrete store configuration used by witnesses: daily buckets start at
day 1 (DailyBucketsFrom = 86400000 ms), no periodic tables. -/
def cfgW : StoreConfig :=
  { bucketName := "bkt", tableName := "index", chunkCacheEnabled := false,
    dailyBucketsFrom := 86400000,
    periodic := { usePeriodicTables := false, tablePrefix := "t",
                  tablePeriodSeconds := 604800, periodicTableStartAtUnix := 0 } }

/-- Claim C2: for every from <= through and every store config, bigBuckets
emits exactly the hourly buckets h in [fromHour, throughHour] with
h < lastHourlyBucket followed by exactly the daily buckets d in
[fromDay, throughDay] with d >= firstDailyBucket (so every hourly bucket
precedes every daily bucket); the hourly region and the daily region meet
exactly at the cutover instant with no overlap (every eligible hourly
interval ends at or before every eligible daily interval starts) and no gap
(every nonnegative second falls in an eligible hour or an eligible day); and
the function is pure: equal config and arguments give identical output. -/
theorem bigBuckets_correct (c : StoreConfig) (fromT throughT : Time) :
    bigBuckets c fromT throughT
        = claimHourlyBuckets c fromT throughT ++ claimDailyBuckets c fromT throughT
    ∧ lastHourlyBucket c * secondsInHour = firstDailyBucket c * secondsInDay
    ∧ (∀ h d : Int, h < lastHourlyBucket c → firstDailyBucket c ≤ d →
        (h + 1) * secondsInHour ≤ d * secondsInDay)
    ∧ (∀ s : Int, 0 ≤ s →
        Int.tdiv s secondsInHour < lastHourlyBucket c
          ∨ firstDailyBucket c ≤ Int.tdiv s secondsInDay)
    ∧ (∀ c2 f2 t2, c2 = c → f2 = fromT → t2 = throughT →
        bigBuckets c2 f2 t2 = bigBuckets c fromT throughT) := by
  refine ⟨?_, ?_, ?_, ?_, ?_⟩
  · unfold bigBuckets claimHourlyBuckets claimDailyBuckets intRange
    rw [hourlyLoop_eq_filter, dailyLoop_eq_filter]
  · unfold lastHourlyBucket secondsInHour secondsInDay
    ring
  · intro h d h1 h2
    unfold lastHourlyBucket at h1
    unfold secondsInHour secondsInDay
    omega
  · intro s hs
    rcases lt_or_le (Int.tdiv s secondsInHour) (lastHourlyBucket c) with h | h
    · exact Or.inl h
    · right
      rw [Int.tdiv_eq_ediv hs (by unfold secondsInHour; omega)] at h
      rw [Int.tdiv_eq_ediv hs (by unfold secondsInDay; omega)]
      rw [Int.le_ediv_iff_mul_le (by unfold secondsInDay; omega)]
      have h2 := (Int.le_ediv_iff_mul_le
        (show (0:Int) < secondsInHour by unfold secondsInHour; omega)).mp h
      unfold lastHourlyBucket secondsInHour at h2
      unfold secondsInDay
      omega
  · intro c2 f2 t2 hc hf ht
    rw [hc, hf, ht]

/-- Witness for C2 at a concrete config and range: hours 0..2 of day 0 with
daily cutover at day 1 yield the three hourly buckets and no daily bucket. -/
theorem bigBuckets_correct_witness :
    bigBuckets cfgW 0 7200000
        = claimHourlyBuckets cfgW 0 7200000 ++ claimDailyBuckets cfgW 0 7200000
    ∧ ((1:Int) + 1) * secondsInHour ≤ 1 * secondsInDay
    ∧ (Int.tdiv 5000 secondsInHour < lastHourlyBucket cfgW
        ∨ firstDailyBucket cfgW ≤ Int.tdiv 5000 secondsInDay)
    ∧ bigBuckets cfgW 0 7200000 = bigBuckets cfgW 0 7200000
    ∧ bigBuckets cfgW 0 7200000
        = [hourlyBucketSpec cfgW 0, hourlyBucketSpec cfgW 1, hourlyBucketSpec cfgW 2] :=
  ⟨(bigBuckets_correct cfgW 0 7200000).1,
   (bigBuckets_correct cfgW 0 7200000).2.2.1 1 1 (by decide) (by decide),
   (bigBuckets_correct cfgW 0 7200000).2.2.2.1 5000 (by decide),
   (bigBuckets_correct cfgW 0 7200000).2.2.2.2 cfgW 0 7200000 rfl rfl rfl,
   by decide⟩

/-- The data parseChunkID recovers from a chunk ID.  The ID string is opaque
in the source; it is modelled as the parsed triple together with a flag for
the malformed case, so the parse-failure path stays representable. -/
structure ChunkID where
  fp : Nat
  fromMs : Int
  throughMs : Int
  malformed : Bool
deriving DecidableEq

/-- Rendering of a chunk ID as the opaque string the blob keys use. -/
def ChunkID.str (id : ChunkID) : String :=
  toString id.fp ++ "/" ++ toString id.fromMs ++ "/" ++ toString id.throughMs

/-- Modelled from the spec: parseChunkID (defined outside src/) has the sole
contract parse(id) = (fingerprint, fromMs, throughMs), failing on a
malformed ID. -/
def parseChunkID (id : ChunkID) : Except String (Nat × Int × Int) :=
  if id.malformed then .error ("invalid chunk ID") else .ok (id.fp, id.fromMs, id.throughMs)

/-- Chunk from the source: ID, label set, bounds, opaque payload, and the
transient metadataInIndex flag.  chunk.reader() is modelled from the spec as
an always-available body (the spec's Put fan-out has each task call the blob
client PUT directly). -/
structure Chunk where
  id : ChunkID
  metric : List (String × String)
  fromMs : Int
  throughMs : Int
  payload : Option String
  metadataInIndex : Bool
deriving DecidableEq

/-- chunkName from src/chunk/chunk_store.go. -/
def chunkName (userID chunkID : String) : String := userID ++ "/" ++ chunkID

/-- hashValue from src/chunk/chunk_store.go. -/
def hashValue (userID bucket metricName : String) : String :=
  userID ++ ":" ++ bucket ++ ":" ++ metricName

/-- One index PutRequest: the hash value plus the rangeValue fields.  The
order-preserving lex encoding of (label, value, chunkID) is external; it is
modelled by the tuple itself. -/
structure IndexPutReq where
  hashVal : String
  rangeLabel : String
  rangeLabelValue : String
  rangeChunkID : String
deriving DecidableEq

/-- The index writes calculateDynamoWrites emits for one chunk: one request
per bucket per non-name label, tagged with the destination table. -/
def chunkIndexWrites (cfg : StoreConfig) (userID metricName : String) (c : Chunk) :
    List (String × IndexPutReq) :=
  (bigBuckets cfg c.fromMs c.throughMs).flatMap (fun b =>
    (c.metric.filter (fun lv => decide (lv.1 ≠ "__name__"))).map (fun lv =>
      (b.tableName,
        { hashVal := hashValue userID b.bucket metricName,
          rangeLabel := lv.1, rangeLabelValue := lv.2, rangeChunkID := c.id.str })))

/-- calculateDynamoWrites from src/chunk/chunk_store.go.  The per-table Go map
is flattened to a list of (table, request) pairs; the grouping is not
observable by any claim.  The first chunk without a __name__ label aborts
with an error and nothing is returned for the other chunks. -/
def calculateDynamoWrites (cfg : StoreConfig) (userID : String) :
    List Chunk → Except String (List (String × IndexPutReq))
  | [] => .ok []
  | c :: rest =>
    match c.metric.lookup ("__name__") with
    | none => .error ("no MetricNameLabel for chunk")
    | some mname =>
      match calculateDynamoWrites cfg userID rest with
      | .error e => .error e
      | .ok reqs => .ok (chunkIndexWrites cfg userID mname c ++ reqs)

/-- The observable requests Put issues. -/
inductive PutEvent where
  | s3Put (key : String)
  | indexBatchWrite (reqs : List (String × IndexPutReq))
deriving DecidableEq

/-- Everything outside Put that its outcome depends on: the tenant lookup,
the blob-write task results in channel-arrival order (one per chunk), and
the result of the dynamo batch write. -/
structure PutOracle where
  userID : Except String String
  blobArrival : List (Option String)
  indexErr : Option String

/-- The receive loop of putChunks: one receive per chunk, remembering the
error of the most recent failed task. -/
def putChunksErr (arrival : List (Option String)) : Option String :=
  arrival.foldl (fun lastErr e => match e with | some err => some err | none => lastErr) none

/-- Put from src/chunk/chunk_store.go: extract the tenant, write all blobs in
parallel (all tasks run their PUT and are awaited; the loop keeps the last
error received), and only if all blob writes succeeded compute the index
writes and submit the KV batch write, returning its error. -/
def put (cfg : StoreConfig) (o : PutOracle) (chunks : List Chunk) :
    List PutEvent × Option String :=
  match o.userID with
  | .error e => ([], some e)
  | .ok uid =>
    let blobEvents := chunks.map (fun c => PutEvent.s3Put (chunkName uid c.id.str))
    match putChunksErr o.blobArrival with
    | some e => (blobEvents, some e)
    | none =>
      match calculateDynamoWrites cfg uid chunks with
      | .error e => (blobEvents, some e)
      | .ok reqs => (blobEvents ++ [PutEvent.indexBatchWrite reqs], o.indexErr)

/-- The first error of the arrival order, as claim C3 words it. -/
def firstErrorSpec : List (Option String) → Option String
  | [] => none
  | some e :: _ => some e
  | none :: rest => firstErrorSpec rest

/-- The last error of the arrival order. -/
def lastErrorReceived : List (Option String) → Option String
  | [] => none
  | some e :: rest =>
    match lastErrorReceived rest with
    | none => some e
    | some e2 => some e2
  | none :: rest => lastErrorReceived rest

theorem putChunksErr_foldl (l : List (Option String)) :
    ∀ acc : Option String,
      l.foldl (fun lastErr e => match e with | some err => some err | none => lastErr) acc
        = match lastErrorReceived l with
          | none => acc
          | some e => some e := by
  induction l with
  | nil => intro acc; simp [lastErrorReceived]
  | cons x rest ih =>
    intro acc
    cases x with
    | none => simpa [lastErrorReceived] using ih acc
    | some e =>
      simp only [List.foldl_cons, lastErrorReceived]
      rw [ih (some e)]
      cases lastErrorReceived rest <;> simp

theorem putChunksErr_eq_last (l : List (Option String)) :
    putChunksErr l = lastErrorReceived l := by
  unfold putChunksErr
  rw [putChunksErr_foldl l none]
  cases lastErrorReceived l <;> simp

theorem lastErrorReceived_eq_none (l : List (Option String)) :
    lastErrorReceived l = none ↔ ∀ x ∈ l, x = none := by
  induction l with
  | nil => simp [lastErrorReceived]
  | cons x rest ih =>
    cases x with
    | none => simp [lastErrorReceived, ih]
    | some e =>
      simp only [lastErrorReceived]
      constructor
      · intro h
        exfalso
        cases hrest : lastErrorReceived rest <;> simp [hrest] at h
      · intro h
        exact absurd (h (some e) (List.mem_cons_self _ _)) (by simp)

theorem putChunksErr_eq_none (l : List (Option String)) :
    putChunksErr l = none ↔ ∀ x ∈ l, x = none := by
  rw [putChunksErr_eq_last]; exact lastErrorReceived_eq_none l

theorem calculateDynamoWrites_error_of_missing_name (cfg : StoreConfig) (uid : String) :
    ∀ chunks : List Chunk,
      (∃ c ∈ chunks, c.metric.lookup ("__name__") = none) →
      ∃ e, calculateDynamoWrites cfg uid chunks = .error e := by
  intro chunks
  induction chunks with
  | nil => rintro ⟨c, hc, _⟩; simp at hc
  | cons c rest ih =>
    rintro ⟨c0, hc0, hnone⟩
    rcases List.mem_cons.mp hc0 with rfl | hmem
    · exact ⟨"no MetricNameLabel for chunk", by simp [calculateDynamoWrites, hnone]⟩
    · cases hname : c.metric.lookup ("__name__") with
      | none => exact ⟨"no MetricNameLabel for chunk", by simp [calculateDynamoWrites, hname]⟩
      | some mname =>
        obtain ⟨e, he⟩ := ih ⟨c0, hmem, hnone⟩
        exact ⟨e, by simp [calculateDynamoWrites, hname, he]⟩

/-- Claim C1: for every Put call, all blob writes are performed and awaited
before any index write is attempted (the event trace is blob puts followed
only by index batch writes); if any blob write returns an error, Put returns
an error and writes no index rows; and a Put that returns nil has completed
every blob PUT and the KV batch write of every computed index entry. -/
theorem put_blob_writes_precede_index_write
    (cfg : StoreConfig) (o : PutOracle) (chunks : List Chunk) :
    (∃ blobPart idxPart, (put cfg o chunks).1 = blobPart ++ idxPart
      ∧ (∀ ev ∈ blobPart, ∃ k, ev = PutEvent.s3Put k)
      ∧ (∀ ev ∈ idxPart, ∃ reqs, ev = PutEvent.indexBatchWrite reqs))
    ∧ ((∃ e, some e ∈ o.blobArrival) →
        (put cfg o chunks).2 ≠ none
          ∧ ∀ reqs, PutEvent.indexBatchWrite reqs ∉ (put cfg o chunks).1)
    ∧ ((put cfg o chunks).2 = none →
        ∃ uid reqs, o.userID = .ok uid
          ∧ (∀ c ∈ chunks, PutEvent.s3Put (chunkName uid c.id.str) ∈ (put cfg o chunks).1)
          ∧ calculateDynamoWrites cfg uid chunks = .ok reqs
          ∧ PutEvent.indexBatchWrite reqs ∈ (put cfg o chunks).1
          ∧ o.indexErr = none) := by
  cases hu : o.userID with
  | error e =>
    refine ⟨⟨[], [], by simp [put, hu], by simp, by simp⟩, ?_, ?_⟩
    · intro _; constructor
      · simp [put, hu]
      · intro reqs; simp [put, hu]
    · intro h; simp [put, hu] at h
  | ok uid =>
    cases hb : putChunksErr o.blobArrival with
    | some e =>
      refine ⟨⟨chunks.map (fun c => PutEvent.s3Put (chunkName uid c.id.str)), [],
          by simp [put, hu, hb], ?_, by simp⟩, ?_, ?_⟩
      · intro ev hev
        obtain ⟨c, _, rfl⟩ := List.mem_map.mp hev
        exact ⟨_, rfl⟩
      · intro _
        constructor
        · simp [put, hu, hb]
        · intro reqs hmem
          simp only [put, hu, hb] at hmem
          obtain ⟨c, _, h⟩ := List.mem_map.mp hmem
          exact PutEvent.noConfusion h
      · intro h; simp [put, hu, hb] at h
    | none =>
      have hall : ∀ x ∈ o.blobArrival, x = none := (putChunksErr_eq_none _).mp hb
      cases hc : calculateDynamoWrites cfg uid chunks with
      | error e =>
        refine ⟨⟨chunks.map (fun c => PutEvent.s3Put (chunkName uid c.id.str)), [],
            by simp [put, hu, hb, hc], ?_, by simp⟩, ?_, ?_⟩
        · intro ev hev
          obtain ⟨c, _, rfl⟩ := List.mem_map.mp hev
          exact ⟨_, rfl⟩
        · rintro ⟨e1, he1⟩
          exact absurd (hall _ he1) (by simp)
        · intro h; simp [put, hu, hb, hc] at h
      | ok reqs =>
        refine ⟨⟨chunks.map (fun c => PutEvent.s3Put (chunkName uid c.id.str)),
            [PutEvent.indexBatchWrite reqs], by simp [put, hu, hb, hc], ?_, ?_⟩, ?_, ?_⟩
        · intro ev hev
          obtain ⟨c, _, rfl⟩ := List.mem_map.mp hev
          exact ⟨_, rfl⟩
        · intro ev hev
          rcases List.mem_singleton.mp hev with rfl
          exact ⟨_, rfl⟩
        · rintro ⟨e1, he1⟩
          exact absurd (hall _ he1) (by simp)
        · intro hres
          refine ⟨uid, reqs, rfl, ?_, hc, ?_, ?_⟩
          · intro c hcmem
            simp only [put, hu, hb, hc]
            exact List.mem_append_left _ (List.mem_map_of_mem _ hcmem)
          · simp [put, hu, hb, hc]
          · simpa [put, hu, hb, hc] using hres

/-- A chunk used by witnesses: labels __name__ = up, job = api, range 0..64 ms. -/
def chunkW : Chunk :=
  { id := { fp := 1, fromMs := 0, throughMs := 64, malformed := false },
    metric := [("__name__", "up"), ("job", "api")],
    fromMs := 0, throughMs := 64, payload := none, metadataInIndex := false }

/-- A second witness chunk with a different fingerprint and label value. -/
def chunkW2 : Chunk :=
  { chunkW with id := { fp := 2, fromMs := 0, throughMs := 64, malformed := false },
                metric := [("__name__", "up"), ("job", "db")] }

/-- A Put oracle whose single blob write fails. -/
def oPutFail : PutOracle :=
  { userID := .ok ("u1"), blobArrival := [some ("boom")], indexErr := none }

/-- A Put oracle whose single blob write and index write succeed. -/
def oPutOk : PutOracle :=
  { userID := .ok ("u1"), blobArrival := [none], indexErr := none }

/-- The index writes Put computes for chunkW under cfgW: one entry, in the
hour-0 bucket, for the single non-name label. -/
def reqsW : List (String × IndexPutReq) :=
  [("index", { hashVal := "u1:0:up", rangeLabel := "job",
               rangeLabelValue := "api", rangeChunkID := "1/0/64" })]

/-- Witness for C1: with a failing blob write Put returns an error and no
index write appears; with everything succeeding the blob put and the batch
write of the computed entries both appear in the trace. -/
theorem put_blob_writes_precede_index_write_witness :
    ((put cfgW oPutFail [chunkW]).2 ≠ none
      ∧ ∀ reqs, PutEvent.indexBatchWrite reqs ∉ (put cfgW oPutFail [chunkW]).1)
    ∧ (∃ uid reqs, oPutOk.userID = .ok uid
        ∧ (∀ c ∈ [chunkW], PutEvent.s3Put (chunkName uid c.id.str) ∈ (put cfgW oPutOk [chunkW]).1)
        ∧ calculateDynamoWrites cfgW uid [chunkW] = .ok reqs
        ∧ PutEvent.indexBatchWrite reqs ∈ (put cfgW oPutOk [chunkW]).1
        ∧ oPutOk.indexErr = none) :=
  ⟨(put_blob_writes_precede_index_write cfgW oPutFail [chunkW]).2.1 ⟨"boom", by decide⟩,
   (put_blob_writes_precede_index_write cfgW oPutOk [chunkW]).2.2 (by decide)⟩

/-- A Put oracle with two blob tasks failing with distinct errors, e1
arriving before e2. -/
def oPutTwoFail : PutOracle :=
  { userID := .ok ("u1"), blobArrival := [some ("e1"), some ("e2")], indexErr := none }

/-- Claim C3 counterexample: with two blob tasks failing with distinct errors
e1 then e2 (in arrival order), Put returns e2, the last error observed, not
the first error e1 the claim requires. -/
theorem put_returns_last_not_first_error_cex :
    firstErrorSpec oPutTwoFail.blobArrival = some ("e1")
    ∧ (put cfgW oPutTwoFail [chunkW, chunkW2]).2 = some ("e2")
    ∧ (some ("e2") : Option String) ≠ some ("e1") := by
  refine ⟨rfl, rfl, by decide⟩

/-- Claim C3 amended: Put returns the last blob error it observed (the
receive loop keeps overwriting lastErr), while still awaiting all blob
tasks — every chunk's blob PUT is in the trace whenever the tenant lookup
succeeded; if every blob write succeeds, Put returns the index batch-write
error. -/
theorem put_error_propagation_amended
    (cfg : StoreConfig) (o : PutOracle) (chunks : List Chunk) :
    putChunksErr o.blobArrival = lastErrorReceived o.blobArrival
    ∧ (∀ uid, o.userID = .ok uid →
        ∀ c ∈ chunks, PutEvent.s3Put (chunkName uid c.id.str) ∈ (put cfg o chunks).1)
    ∧ (∀ uid reqs, o.userID = .ok uid →
        (∀ x ∈ o.blobArrival, x = none) →
        calculateDynamoWrites cfg uid chunks = .ok reqs →
        (put cfg o chunks).2 = o.indexErr) := by
  refine ⟨putChunksErr_eq_last _, ?_, ?_⟩
  · intro uid hu c hc
    simp only [put, hu]
    cases hb : putChunksErr o.blobArrival with
    | some e => exact List.mem_map_of_mem _ hc
    | none =>
      cases hcalc : calculateDynamoWrites cfg uid chunks with
      | error e => exact List.mem_map_of_mem _ hc
      | ok reqs => exact List.mem_append_left _ (List.mem_map_of_mem _ hc)
  · intro uid reqs hu hnone hcalc
    have hb : putChunksErr o.blobArrival = none := (putChunksErr_eq_none _).mpr hnone
    simp [put, hu, hb, hcalc]

/-- Witness for the amended C3: at the two-failure oracle the returned error
is the last received; at the all-success oracle Put returns the index error. -/
theorem put_error_propagation_amended_witness :
    putChunksErr oPutTwoFail.blobArrival = lastErrorReceived oPutTwoFail.blobArrival
    ∧ PutEvent.s3Put (chunkName ("u1") chunkW.id.str) ∈ (put cfgW oPutOk [chunkW]).1
    ∧ (put cfgW oPutOk [chunkW]).2 = oPutOk.indexErr :=
  ⟨(put_error_propagation_amended cfgW oPutTwoFail [chunkW]).1,
   (put_error_propagation_amended cfgW oPutOk [chunkW]).2.1 ("u1") rfl chunkW (by decide),
   (put_error_propagation_amended cfgW oPutOk [chunkW]).2.2 ("u1") reqsW rfl
     (by decide) (by rfl)⟩

/-- Claim C9: if some chunk in the call lacks the __name__ label, Put still
performs and awaits every blob write for every chunk, then returns an error
and issues no index batch write at all, so index entries for the well-formed
chunks of the same call are not written either. -/
theorem put_missing_name_label
    (cfg : StoreConfig) (o : PutOracle) (chunks : List Chunk) (uid : String)
    (hu : o.userID = .ok uid)
    (hm : ∃ c ∈ chunks, c.metric.lookup ("__name__") = none) :
    (∀ c ∈ chunks, PutEvent.s3Put (chunkName uid c.id.str) ∈ (put cfg o chunks).1)
    ∧ (put cfg o chunks).2 ≠ none
    ∧ (∀ reqs, PutEvent.indexBatchWrite reqs ∉ (put cfg o chunks).1) := by
  obtain ⟨e, hcalc⟩ := calculateDynamoWrites_error_of_missing_name cfg uid chunks hm
  cases hb : putChunksErr o.blobArrival with
  | some e1 =>
    refine ⟨?_, by simp [put, hu, hb], ?_⟩
    · intro c hc
      simp only [put, hu, hb]
      exact List.mem_map_of_mem _ hc
    · intro reqs hmem
      simp only [put, hu, hb] at hmem
      obtain ⟨c, _, h⟩ := List.mem_map.mp hmem
      exact PutEvent.noConfusion h
  | none =>
    refine ⟨?_, by simp [put, hu, hb, hcalc], ?_⟩
    · intro c hc
      simp only [put, hu, hb, hcalc]
      exact List.mem_map_of_mem _ hc
    · intro reqs hmem
      simp only [put, hu, hb, hcalc] at hmem
      obtain ⟨c, _, h⟩ := List.mem_map.mp hmem
      exact PutEvent.noConfusion h

/-- A chunk that lacks the __name__ label. -/
def chunkNoName : Chunk :=
  { chunkW with id := { fp := 3, fromMs := 0, throughMs := 64, malformed := false },
                metric := [("job", "api")] }

/-- Witness for C9: a call holding one well-formed chunk and one chunk with
no __name__ label performs both blob puts, errors, and writes no index rows. -/
theorem put_missing_name_label_witness :
    (∀ c ∈ [chunkW, chunkNoName],
      PutEvent.s3Put (chunkName ("u1") c.id.str)
        ∈ (put cfgW { oPutOk with blobArrival := [none, none] } [chunkW, chunkNoName]).1)
    ∧ (put cfgW { oPutOk with blobArrival := [none, none] } [chunkW, chunkNoName]).2 ≠ none
    ∧ (∀ reqs, PutEvent.indexBatchWrite reqs
        ∉ (put cfgW { oPutOk with blobArrival := [none, none] } [chunkW, chunkNoName]).1) :=
  put_missing_name_label cfgW { oPutOk with blobArrival := [none, none] }
    [chunkW, chunkNoName] ("u1") rfl ⟨chunkNoName, by decide, by decide⟩

/-- The chunk-ID order used for sorting (the source sorts by the opaque ID
string; any fixed linear key works for the claims, which only use
membership). -/
def idLe (a b : ChunkID) : Bool :=
  decide (a.fp < b.fp)
    || (decide (a.fp = b.fp)
        && (decide (a.fromMs < b.fromMs)
            || (decide (a.fromMs = b.fromMs) && decide (a.throughMs ≤ b.throughMs))))

/-- Insertion step of the ID sort. -/
def insertByID (c : Chunk) : List Chunk → List Chunk
  | [] => [c]
  | x :: xs => if idLe c.id x.id then c :: x :: xs else x :: insertByID c xs

/-- sort.Sort(ByID(...)): sorting by chunk ID, modelled by insertion sort. -/
def sortByID : List Chunk → List Chunk
  | [] => []
  | c :: rest => insertByID c (sortByID rest)

/-- Modelled from the spec: merge (defined outside src/) is union of
per-bucket result sets preserving sort-by-ID. -/
def merge (a b : List Chunk) : List Chunk := sortByID (a ++ b)

theorem mem_insertByID {x c : Chunk} : ∀ l, x ∈ insertByID c l ↔ x = c ∨ x ∈ l := by
  intro l
  induction l with
  | nil => simp [insertByID]
  | cons y ys ih =>
    by_cases h : idLe c.id y.id
    · simp [insertByID, h]
    · simp [insertByID, h, ih]
      tauto

theorem mem_sortByID {x : Chunk} : ∀ l, x ∈ sortByID l ↔ x ∈ l := by
  intro l
  induction l with
  | nil => simp [sortByID]
  | cons c rest ih => simp [sortByID, mem_insertByID, ih]

theorem mem_merge {x : Chunk} (a b : List Chunk) :
    x ∈ merge a b ↔ x ∈ a ∨ x ∈ b := by
  simp [merge, mem_sortByID]

/-- metric.LabelMatcher types. -/
inductive MatcherType where
  | equal
  | notEqual
  | regexMatch
  | regexNoMatch
deriving DecidableEq

/-- metric.LabelMatcher: name, type and value.  The compiled regex of
non-equality matchers is an external collaborator and is passed separately
where needed. -/
structure Matcher where
  name : String
  mtype : MatcherType
  value : String
deriving DecidableEq

/-- extractMetricName from src/chunk/chunk_store.go, as its callers see it:
the metric name of the first __name__ matcher (which must be an equality
matcher) and the matcher list with that matcher removed. -/
def extractMetricName : List Matcher → Except String (String × List Matcher)
  | [] => .error ("no matcher for MetricNameLabel")
  | m :: rest =>
    if m.name = "__name__" then
      if m.mtype = MatcherType.equal then .ok (m.value, rest)
      else .error ("must have equality matcher for MetricNameLabel")
    else
      match extractMetricName rest with
      | .error e => .error e
      | .ok (v, ms) => .ok (v, m :: ms)

/-- Index of the first __name__ matcher. -/
def findNameIdx : List Matcher → Option Nat
  | [] => none
  | m :: rest => if m.name = "__name__" then some 0 else (findNameIdx rest).map (· + 1)

/-- The contents of the caller's backing array after the in-place removal
matchers[:i+copy(matchers[i:], matchers[i+1:])]: elements after position i
are shifted left one slot and the last slot keeps its old value. -/
def goShiftRemove (ms : List Matcher) (i : Nat) : List Matcher :=
  ms.take i ++ ms.drop (i + 1) ++ ms.drop (ms.length - 1)

/-- What the caller's matcher slice holds after Get ran: Get hands the
caller's slice to lookupChunks, whose extractMetricName performs the
in-place copy exactly when it finds a __name__ equality matcher; the error
paths return before mutating. -/
def callerMatchersAfterGet (ms : List Matcher) : List Matcher :=
  match findNameIdx ms with
  | none => ms
  | some i =>
    match ms[i]? with
    | none => ms
    | some m => if m.mtype = MatcherType.equal then goShiftRemove ms i else ms

/-- One iteration of the select loop of lookupChunks: merge an arriving
chunk set, or remember the error of a failed bucket. -/
def collectStep (acc : List Chunk × Option String) (r : Except String (List Chunk)) :
    List Chunk × Option String :=
  match r with
  | .ok cs => (merge acc.1 cs, acc.2)
  | .error e => (acc.1, some e)

/-- The select loop of lookupChunks: merge each arriving per-bucket chunk
set, remember the error of the most recent failed bucket. -/
def collectBucketResults (rs : List (Except String (List Chunk))) :
    List Chunk × Option String :=
  rs.foldl collectStep ([], none)

/-- The time filter of lookupChunks: parse each chunk ID (the first parse
error aborts the whole lookup) and keep chunks overlapping the range. -/
def timeFilter (fromT throughT : Time) : List Chunk → Except String (List Chunk)
  | [] => .ok []
  | c :: rest =>
    match parseChunkID c.id with
    | .error e => .error e
    | .ok (_, cf, ct) =>
      if ct < fromT ∨ throughT < cf then timeFilter fromT throughT rest
      else
        match timeFilter fromT throughT rest with
        | .error e => .error e
        | .ok out => .ok (c :: out)

/-- lookupChunks from src/chunk/chunk_store.go, over the arrival-ordered
per-bucket goroutine results: extract the metric name, collect the bucket
results (keeping the last error), time-filter, and return both the filtered
chunks and the remembered error. -/
def lookupChunks (fromT throughT : Time) (matchers : List Matcher)
    (bucketResults : List (Except String (List Chunk))) :
    List Chunk × Option String :=
  match extractMetricName matchers with
  | .error e => ([], some e)
  | .ok _ =>
    let cl := collectBucketResults bucketResults
    match timeFilter fromT throughT cl.1 with
    | .error e => ([], some e)
    | .ok filtered => (filtered, cl.2)

/-- Everything outside Get that its outcome depends on: the tenant lookup,
the per-bucket lookup results in arrival order, the cache split predicate
(modelled from the spec: FetchChunkData splits the misses into hits and
misses by key), and the combined S3 GetObject + decode of one chunk body. -/
structure GetOracle where
  userID : Except String String
  bucketResults : List (Except String (List Chunk))
  cacheHit : Chunk → Bool
  fetchBody : ChunkID → Except String String

/-- fetchChunkData from src/chunk/chunk_store.go: one task per chunk fetches
and decodes the body into the chunk object; results and errors are
collected, and the first collected error fails the call. -/
def fetchChunkData (fetchBody : ChunkID → Except String String)
    (chunkSet : List Chunk) : Except String (List Chunk) :=
  let results := chunkSet.map (fun c =>
    match fetchBody c.id with
    | .error e => Except.error e
    | .ok body => Except.ok { c with payload := some body })
  match results.filterMap (fun r => match r with | .error e => some e | .ok _ => none) with
  | [] => .ok (results.filterMap (fun r => match r with | .ok c => some c | .error _ => none))
  | e :: _ => .error e

/-- The cache hits of Get: when a cache is configured the looked-up chunks
are split by the cache; without one nothing comes from the cache. -/
def getCacheHits (cfg : StoreConfig) (o : GetOracle) (fromT throughT : Time)
    (matchers : List Matcher) : List Chunk :=
  if cfg.chunkCacheEnabled then
    (lookupChunks fromT throughT matchers o.bucketResults).1.filter o.cacheHit
  else []

/-- The cache misses of Get, which proceed to the blob fetch. -/
def getMisses (cfg : StoreConfig) (o : GetOracle) (fromT throughT : Time)
    (matchers : List Matcher) : List Chunk :=
  if cfg.chunkCacheEnabled then
    (lookupChunks fromT throughT matchers o.bucketResults).1.filter (fun c => !o.cacheHit c)
  else (lookupChunks fromT throughT matchers o.bucketResults).1

/-- Get from src/chunk/chunk_store.go: tenant, lookup (any lookup error is
returned at once, with no chunks), cache split when a cache is configured
(cache errors are demoted to warnings), blob fetch of the misses, then
concatenate and sort by ID. -/
def get (cfg : StoreConfig) (o : GetOracle) (fromT throughT : Time)
    (matchers : List Matcher) : Except String (List Chunk) :=
  match o.userID with
  | .error e => .error e
  | .ok _ =>
    match (lookupChunks fromT throughT matchers o.bucketResults).2 with
    | some e => .error e
    | none =>
      match fetchChunkData o.fetchBody (getMisses cfg o fromT throughT matchers) with
      | .error e => .error e
      | .ok fromS3 => .ok (sortByID (getCacheHits cfg o fromT throughT matchers ++ fromS3))

/-- The last error among the per-bucket results, as the claim words it. -/
def lastBucketErrorSpec : List (Except String (List Chunk)) → Option String
  | [] => none
  | .ok _ :: rest => lastBucketErrorSpec rest
  | .error e :: rest =>
    match lastBucketErrorSpec rest with
    | none => some e
    | some e2 => some e2

theorem collect_foldl_snd (rs : List (Except String (List Chunk))) :
    ∀ acc, (rs.foldl collectStep acc).2
      = match lastBucketErrorSpec rs with
        | none => acc.2
        | some e => some e := by
  induction rs with
  | nil => intro acc; simp [lastBucketErrorSpec]
  | cons r rest ih =>
    intro acc
    cases r with
    | ok cs =>
      simp only [List.foldl_cons, lastBucketErrorSpec]
      exact ih _
    | error e =>
      simp only [List.foldl_cons, lastBucketErrorSpec]
      have hstep : collectStep acc (Except.error e) = (acc.1, some e) := rfl
      rw [hstep, ih (acc.1, some e)]
      cases lastBucketErrorSpec rest <;> simp

theorem collect_snd_eq (rs : List (Except String (List Chunk))) :
    (collectBucketResults rs).2 = lastBucketErrorSpec rs := by
  unfold collectBucketResults
  rw [collect_foldl_snd rs ([], none)]
  cases lastBucketErrorSpec rs <;> simp

theorem mem_collect_foldl {c : Chunk} :
    ∀ (rs : List (Except String (List Chunk))) acc,
      (c ∈ acc.1 ∨ ∃ cs, Except.ok cs ∈ rs ∧ c ∈ cs) →
      c ∈ (rs.foldl collectStep acc).1 := by
  intro rs
  induction rs with
  | nil =>
    intro acc h
    rcases h with h | ⟨cs, hmem, _⟩
    · simpa using h
    · simp at hmem
  | cons r rest ih =>
    intro acc h
    cases r with
    | ok cs2 =>
      simp only [List.foldl_cons]
      apply ih
      rcases h with h | ⟨cs, hmem, hc⟩
      · exact Or.inl ((mem_merge _ _).mpr (Or.inl h))
      · rcases List.mem_cons.mp hmem with heq | hrest
        · obtain rfl : cs2 = cs := by injection heq.symm
          exact Or.inl ((mem_merge _ _).mpr (Or.inr hc))
        · exact Or.inr ⟨cs, hrest, hc⟩
    | error e =>
      simp only [List.foldl_cons]
      apply ih
      rcases h with h | ⟨cs, hmem, hc⟩
      · exact Or.inl h
      · rcases List.mem_cons.mp hmem with heq | hrest
        · exact absurd heq (by simp)
        · exact Or.inr ⟨cs, hrest, hc⟩

theorem parseChunkID_ok {id : ChunkID} {v : Nat × Int × Int}
    (h : parseChunkID id = .ok v) : v = (id.fp, id.fromMs, id.throughMs) := by
  unfold parseChunkID at h
  by_cases hm : id.malformed <;> simp [hm] at h
  exact h.symm

theorem timeFilter_sound {fromT throughT : Time} :
    ∀ (l out : List Chunk), timeFilter fromT throughT l = .ok out →
      ∀ c ∈ out, ¬(c.id.throughMs < fromT) ∧ ¬(throughT < c.id.fromMs) := by
  intro l
  induction l with
  | nil =>
    intro out h
    unfold timeFilter at h
    injection h with h
    subst h
    simp
  | cons c0 rest ih =>
    intro out h
    unfold timeFilter at h
    cases hp : parseChunkID c0.id with
    | error e => simp [hp] at h
    | ok v =>
      obtain ⟨fp, cf, ct⟩ := v
      have hv := parseChunkID_ok hp
      simp only [Prod.mk.injEq] at hv
      obtain ⟨hv1, hv2, hv3⟩ := hv
      subst hv2
      subst hv3
      simp only [hp] at h
      by_cases hdrop : c0.id.throughMs < fromT ∨ throughT < c0.id.fromMs
      · rw [if_pos hdrop] at h
        exact ih out h
      · rw [if_neg hdrop] at h
        cases hrest : timeFilter fromT throughT rest with
        | error e => simp [hrest] at h
        | ok out2 =>
          simp only [hrest] at h
          injection h with h
          subst h
          intro c hc
          rcases List.mem_cons.mp hc with rfl | hc2
          · exact ⟨fun hlt => hdrop (Or.inl hlt), fun hlt => hdrop (Or.inr hlt)⟩
          · exact ih out2 hrest c hc2

theorem mem_lookupChunks_overlaps {fromT throughT : Time} {matchers : List Matcher}
    {rs : List (Except String (List Chunk))} :
    ∀ c ∈ (lookupChunks fromT throughT matchers rs).1,
      ¬(c.id.throughMs < fromT) ∧ ¬(throughT < c.id.fromMs) := by
  intro c hc
  unfold lookupChunks at hc
  cases hx : extractMetricName matchers with
  | error e => rw [hx] at hc; simp at hc
  | ok v =>
    rw [hx] at hc
    simp only at hc
    cases ht : timeFilter fromT throughT (collectBucketResults rs).1 with
    | error e => rw [ht] at hc; simp at hc
    | ok filtered =>
      rw [ht] at hc
      simp only at hc
      exact timeFilter_sound _ _ ht c hc

theorem mem_fetchChunkData {fb : ChunkID → Except String String}
    {l out : List Chunk} (h : fetchChunkData fb l = .ok out) :
    ∀ x ∈ out, ∃ c ∈ l, x.id = c.id := by
  intro x hx
  simp only [fetchChunkData] at h
  split at h
  · injection h with h
    subst h
    obtain ⟨r, hr, hextract⟩ := List.mem_filterMap.mp hx
    obtain ⟨c, hc, hrc⟩ := List.mem_map.mp hr
    refine ⟨c, hc, ?_⟩
    cases hfb : fb c.id with
    | error e => rw [hfb] at hrc; subst hrc; simp at hextract
    | ok body =>
      rw [hfb] at hrc
      subst hrc
      simp only [Option.some.injEq] at hextract
      subst hextract
      rfl
  · exact absurd h (by simp)

theorem mem_getCacheHits {cfg : StoreConfig} {o : GetOracle} {fromT throughT : Time}
    {matchers : List Matcher} :
    ∀ c ∈ getCacheHits cfg o fromT throughT matchers,
      c ∈ (lookupChunks fromT throughT matchers o.bucketResults).1 := by
  intro c hc
  unfold getCacheHits at hc
  by_cases hcache : cfg.chunkCacheEnabled
  · rw [if_pos hcache] at hc; exact (List.mem_filter.mp hc).1
  · rw [if_neg hcache] at hc; simp at hc

theorem mem_getMisses {cfg : StoreConfig} {o : GetOracle} {fromT throughT : Time}
    {matchers : List Matcher} :
    ∀ c ∈ getMisses cfg o fromT throughT matchers,
      c ∈ (lookupChunks fromT throughT matchers o.bucketResults).1 := by
  intro c hc
  unfold getMisses at hc
  by_cases hcache : cfg.chunkCacheEnabled
  · rw [if_pos hcache] at hc; exact (List.mem_filter.mp hc).1
  · rwa [if_neg hcache] at hc

/-- Claim C6: every chunk a successful Get returns overlaps the query range:
with (chunkFrom, chunkThrough) parsed from the chunk ID, no returned chunk
has chunkThrough < from or through < chunkFrom; index rows whose parsed
range is disjoint from the query range were dropped by the time filter. -/
theorem get_time_filter_sound (cfg : StoreConfig) (o : GetOracle)
    (fromT throughT : Time) (matchers : List Matcher) (cs : List Chunk)
    (h : get cfg o fromT throughT matchers = .ok cs) :
    ∀ c ∈ cs, ¬(c.id.throughMs < fromT) ∧ ¬(throughT < c.id.fromMs) := by
  unfold get at h
  split at h
  · exact absurd h (by simp)
  · split at h
    · exact absurd h (by simp)
    · cases hf : fetchChunkData o.fetchBody (getMisses cfg o fromT throughT matchers) with
      | error e => rw [hf] at h; exact absurd h (by simp)
      | ok fromS3 =>
        rw [hf] at h
        injection h with h
        subst h
        intro c hc
        rcases (List.mem_append.mp ((mem_sortByID _).mp hc)) with hcache | hs3
        · exact mem_lookupChunks_overlaps c (mem_getCacheHits c hcache)
        · obtain ⟨c0, hc0, hid⟩ := mem_fetchChunkData hf c hs3
          have := mem_lookupChunks_overlaps c0 (mem_getMisses c0 hc0)
          rw [hid]
          exact this

/-- The __name__ = up equality matcher used by witnesses. -/
def nameMatcherW : Matcher := { name := "__name__", mtype := MatcherType.equal, value := "up" }

/-- A job = api equality matcher used by witnesses. -/
def jobMatcherW : Matcher := { name := "job", mtype := MatcherType.equal, value := "api" }

/-- A chunk as the index lookup yields it: only the ID is populated. -/
def chunkIdxW : Chunk :=
  { id := { fp := 1, fromMs := 10, throughMs := 20, malformed := false },
    metric := [], fromMs := 0, throughMs := 0, payload := none, metadataInIndex := false }

/-- chunkIdxW after the blob fetch decoded its body. -/
def chunkFetchedW : Chunk := { chunkIdxW with payload := some ("body") }

/-- A Get oracle whose single bucket lookup succeeds with chunkIdxW. -/
def oGetOk : GetOracle :=
  { userID := .ok ("u1"), bucketResults := [.ok [chunkIdxW]],
    cacheHit := fun _ => false, fetchBody := fun _ => .ok ("body") }

/-- A Get oracle with one failing bucket and one succeeding bucket. -/
def oGetMixed : GetOracle :=
  { userID := .ok ("u1"), bucketResults := [.error ("boom"), .ok [chunkIdxW]],
    cacheHit := fun _ => false, fetchBody := fun _ => .ok ("body") }

/-- Witness for C6: a successful Get returning one fetched chunk whose parsed
range [10, 20] overlaps the query range [0, 100]. -/
theorem get_time_filter_sound_witness :
    get cfgW oGetOk 0 100 [nameMatcherW] = .ok [chunkFetchedW]
    ∧ ∀ c ∈ [chunkFetchedW],
        ¬(c.id.throughMs < (0 : Int)) ∧ ¬((100 : Int) < c.id.fromMs) :=
  ⟨rfl, get_time_filter_sound cfgW oGetOk 0 100 [nameMatcherW] [chunkFetchedW] rfl⟩

/-- Claim C4 counterexample: with bucket results error(boom) then ok([c]) and
c retrieved and time-filtered inside the lookup phase, Get nevertheless
returns only the error: the retrieved chunk is not fetched or returned. -/
theorem get_discards_chunks_on_lookup_error_cex :
    (lookupChunks 0 100 [nameMatcherW] oGetMixed.bucketResults).1 = [chunkIdxW]
    ∧ (lookupChunks 0 100 [nameMatcherW] oGetMixed.bucketResults).2 = some ("boom")
    ∧ get cfgW oGetMixed 0 100 [nameMatcherW] = .error ("boom") :=
  ⟨rfl, rfl, rfl⟩

/-- Claim C4 amended: the select loop keeps the last lookup error observed
and still merges the chunk sets of the successful buckets, and the merged
set is time-filtered inside lookupChunks; but when any bucket failed, Get
returns only that last error and the retrieved chunk IDs are not fetched
from cache or blob store and not returned. -/
theorem get_lookup_error_amended (cfg : StoreConfig) (o : GetOracle)
    (fromT throughT : Time) (ms : List Matcher) :
    (∀ rs, (collectBucketResults rs).2 = lastBucketErrorSpec rs)
    ∧ (∀ (rs : List (Except String (List Chunk))) cs c,
        Except.ok cs ∈ rs → c ∈ cs → c ∈ (collectBucketResults rs).1)
    ∧ (∀ e uid, o.userID = .ok uid →
        (lookupChunks fromT throughT ms o.bucketResults).2 = some e →
        get cfg o fromT throughT ms = .error e) := by
  refine ⟨collect_snd_eq, ?_, ?_⟩
  · intro rs cs c hmem hc
    exact mem_collect_foldl rs ([], none) (Or.inr ⟨cs, hmem, hc⟩)
  · intro e uid hu hl
    simp [get, hu, hl]

/-- Witness for the amended C4: at the mixed oracle the last bucket error is
remembered, the successful bucket's chunk is collected, and Get returns the
error. -/
theorem get_lookup_error_amended_witness :
    (collectBucketResults oGetMixed.bucketResults).2
        = lastBucketErrorSpec oGetMixed.bucketResults
    ∧ chunkIdxW ∈ (collectBucketResults oGetMixed.bucketResults).1
    ∧ get cfgW oGetMixed 0 100 [nameMatcherW] = .error ("boom") :=
  ⟨(get_lookup_error_amended cfgW oGetMixed 0 100 [nameMatcherW]).1 oGetMixed.bucketResults,
   (get_lookup_error_amended cfgW oGetMixed 0 100 [nameMatcherW]).2.1
     oGetMixed.bucketResults [chunkIdxW] chunkIdxW (by simp [oGetMixed]) (by decide),
   (get_lookup_error_amended cfgW oGetMixed 0 100 [nameMatcherW]).2.2 ("boom") ("u1")
     rfl rfl⟩

/-- Claim C10 counterexample: a Get call whose sole matcher is the __name__
equality matcher leaves the contents of the caller's matcher slice exactly
unchanged (the in-place copy moves zero elements when the __name__ matcher
is the last element), contradicting the claim that the contents are
reordered/overwritten after any such call. -/
theorem extract_metric_name_unchanged_cex :
    callerMatchersAfterGet [nameMatcherW] = [nameMatcherW]
    ∧ extractMetricName [nameMatcherW] = .ok (("up"), []) :=
  ⟨rfl, rfl⟩

/-- Claim C10 amended: extractMetricName removes the first __name__ equality
matcher by an in-place copy, so the caller's backing array becomes the
matchers before it, then the matchers after it shifted left one slot, with
the last slot keeping its old value: the contents are overwritten whenever
the __name__ matcher is not the last element, and are left unchanged when it
is the last element. -/
theorem extract_metric_name_mutation_amended (ms : List Matcher) (i : Nat) (m : Matcher)
    (hidx : findNameIdx ms = some i) (hm : ms[i]? = some m)
    (heq : m.mtype = MatcherType.equal) :
    callerMatchersAfterGet ms = ms.take i ++ ms.drop (i + 1) ++ ms.drop (ms.length - 1)
    ∧ (i + 1 = ms.length → callerMatchersAfterGet ms = ms) := by
  have h1 : callerMatchersAfterGet ms = goShiftRemove ms i := by
    unfold callerMatchersAfterGet
    rw [hidx]
    simp [hm, heq]
  constructor
  · rw [h1]; rfl
  · intro hlen
    rw [h1]
    unfold goShiftRemove
    have h2 : ms.drop (i + 1) = [] := by rw [hlen]; exact List.drop_length _
    have h3 : ms.length - 1 = i := by omega
    rw [h2, h3]
    simp

/-- Witness for the amended C10: with the __name__ matcher first of two the
array is overwritten (shift left, last slot retained); with it last of two
the array is unchanged. -/
theorem extract_metric_name_mutation_amended_witness :
    callerMatchersAfterGet [nameMatcherW, jobMatcherW]
        = [nameMatcherW, jobMatcherW].take 0 ++ [nameMatcherW, jobMatcherW].drop 1
            ++ [nameMatcherW, jobMatcherW].drop 1
    ∧ callerMatchersAfterGet [nameMatcherW, jobMatcherW] = [jobMatcherW, jobMatcherW]
    ∧ callerMatchersAfterGet [jobMatcherW, nameMatcherW] = [jobMatcherW, nameMatcherW] :=
  ⟨(extract_metric_name_mutation_amended [nameMatcherW, jobMatcherW] 0 nameMatcherW
      rfl rfl rfl).1,
   by decide,
   (extract_metric_name_mutation_amended [jobMatcherW, nameMatcherW] 1 nameMatcherW
      rfl rfl rfl).2 rfl⟩

/-- A DynamoDB range value as parseRangeValue sees it: either the decoded
(label, value, chunkID) triple or a malformed byte string.  The
order-preserving lex codec itself is an external library. -/
inductive RangeV where
  | valid (label : String) (value : String) (chunkID : ChunkID)
  | bad
deriving DecidableEq

/-- A row of a DynamoDB query response: the range attribute (none models a
missing/nil B attribute) and the optional inlined chunk metadata (none =
absent, some none = malformed JSON, some (some c) = decodes to c). -/
structure IndexItem where
  range : Option RangeV
  payload : Option (Option Chunk)
deriving DecidableEq

/-- chunk := Chunk{ID: chunkID}: only the ID populated, Go zero values
elsewhere. -/
def emptyChunkFromID (cid : ChunkID) : Chunk :=
  { id := cid, metric := [], fromMs := 0, throughMs := 0,
    payload := none, metadataInIndex := false }

/-- processResponse from src/chunk/chunk_store.go: walk the page's items,
failing on a nil range value, an undecodable range value or undecodable
inlined metadata (rows already appended stay appended); rows not matching a
non-nil matcher are counted as dropped; the rest are appended to the chunk
set.  Returns (chunkSet, dropped, error). -/
def processResponse (matcher : Option (String × (String → Bool))) :
    List IndexItem → List Chunk → Nat → List Chunk × Nat × Option String
  | [], cs, dropped => (cs, dropped, none)
  | item :: rest, cs, dropped =>
    match item.range with
    | none => (cs, dropped, some ("invalid item"))
    | some RangeV.bad => (cs, dropped, some ("range value decode error"))
    | some (RangeV.valid label value cid) =>
      match item.payload with
      | some none => (cs, dropped, some ("chunk json decode error"))
      | some (some pc) =>
        match matcher with
        | some mf =>
          if label ≠ mf.1 ∨ mf.2 value = false then
            processResponse matcher rest cs (dropped + 1)
          else processResponse matcher rest (cs ++ [{ pc with metadataInIndex := true }]) dropped
        | none => processResponse matcher rest (cs ++ [{ pc with metadataInIndex := true }]) dropped
      | none =>
        match matcher with
        | some mf =>
          if label ≠ mf.1 ∨ mf.2 value = false then
            processResponse matcher rest cs (dropped + 1)
          else processResponse matcher rest (cs ++ [emptyChunkFromID cid]) dropped
        | none => processResponse matcher rest (cs ++ [emptyChunkFromID cid]) dropped

/-- The closure state of the two per-bucket lookup functions: the chunk set
pointer, the processingError variable (overwritten on every page), and the
pages / totalDropped counters. -/
structure QueryPageState where
  chunkSet : List Chunk
  processingError : Option String
  pages : Nat
  totalDropped : Nat
deriving DecidableEq

/-- The state before the first page. -/
def emptyQueryPageState : QueryPageState :=
  { chunkSet := [], processingError := none, pages := 0, totalDropped := 0 }

/-- The page visitor both lookup functions pass to queryPages, from
src/chunk/chunk_store.go: process the page, bump the counters, and return
shouldContinue = (processingError != nil && !lastPage) — exactly as the
source writes it. -/
def pageVisitor (matcher : Option (String × (String → Bool)))
    (resp : List IndexItem) (lastPage : Bool) (st : QueryPageState) :
    QueryPageState × Bool :=
  let r := processResponse matcher resp st.chunkSet 0
  ({ chunkSet := r.1, processingError := r.2.2, pages := st.pages + 1,
     totalDropped := st.totalDropped + r.2.1 },
   decide (r.2.2 ≠ none) && !lastPage)

/-- Modelled from the spec: queryPages (the KV backoff client is outside
src/) drives pagination, calling the visitor with each provider page and
lastPage flag, and stops when the visitor returns false or after the last
page; provider errors are propagated verbatim by the caller-side check. -/
def queryPagesDriver
    (visit : List IndexItem → Bool → QueryPageState → QueryPageState × Bool) :
    List (List IndexItem) → QueryPageState → QueryPageState
  | [], st => st
  | [p], st => (visit p true st).1
  | p :: q :: rest, st =>
    let r := visit p false st
    if r.2 then queryPagesDriver visit (q :: rest) r.1 else r.1

/-- Modelled from the spec: adjacent-equal dedup (by chunk ID) after sort. -/
def unique : List Chunk → List Chunk
  | [] => []
  | [c] => [c]
  | c1 :: c2 :: rest =>
    if c1.id = c2.id then unique (c2 :: rest) else c1 :: unique (c2 :: rest)

/-- lookupChunksForMetricName from src/chunk/chunk_store.go, over the
provider's pages: drive the pagination with the source's visitor, fail on a
provider error or a processing error, else sort and dedup the collected
chunk set. -/
def lookupChunksForMetricName (pages : List (List IndexItem))
    (providerErr : Option String) : Except String (List Chunk) :=
  let final := queryPagesDriver (pageVisitor none) pages emptyQueryPageState
  match providerErr with
  | some e => .error e
  | none =>
    match final.processingError with
    | some e => .error e
    | none => .ok (unique (sortByID final.chunkSet))

/-- lookupChunksForMatcher from src/chunk/chunk_store.go: same pagination
with the matcher's in-memory filter; the result is sorted but not deduped. -/
def lookupChunksForMatcher (matcherName : String) (matchFn : String → Bool)
    (pages : List (List IndexItem)) (providerErr : Option String) :
    Except String (List Chunk) :=
  let final := queryPagesDriver (pageVisitor (some (matcherName, matchFn)))
    pages emptyQueryPageState
  match providerErr with
  | some e => .error e
  | none =>
    match final.processingError with
    | some e => .error e
    | none => .ok (sortByID final.chunkSet)

/-- A well-formed index row carrying chunk ID (fp, 0, 64). -/
def itemW1 : IndexItem :=
  { range := some (RangeV.valid ("job") ("api")
      { fp := 1, fromMs := 0, throughMs := 64, malformed := false }),
    payload := none }

/-- A second well-formed index row with a different chunk ID. -/
def itemW2 : IndexItem :=
  { range := some (RangeV.valid ("job") ("api")
      { fp := 2, fromMs := 0, throughMs := 64, malformed := false }),
    payload := none }

/-- Claim C5 (code bug evaluation): the visitor's continue condition is
inverted.  On a successfully processed non-final page (processingError nil)
the visitor returns shouldContinue = false, so a two-page query whose rows
all parse collects only the first page's chunk ID: the second page is
silently skipped.  The claim and the spec require the visitor to return
true there and all pages to be collected. -/
theorem lookup_pagination_stops_after_first_page :
    (processResponse none [itemW1] [] 0).2.2 = none
    ∧ (pageVisitor none [itemW1] false emptyQueryPageState).2 = false
    ∧ lookupChunksForMetricName [[itemW1], [itemW2]] none
        = .ok [emptyChunkFromID { fp := 1, fromMs := 0, throughMs := 64, malformed := false }]
    ∧ (pageVisitor (some (("job"), fun v => decide (v = "api"))) [itemW1] false
        emptyQueryPageState).2 = false
    ∧ lookupChunksForMatcher ("job") (fun v => decide (v = "api")) [[itemW1], [itemW2]] none
        = .ok [emptyChunkFromID { fp := 1, fromMs := 0, throughMs := 64, malformed := false }] :=
  ⟨rfl, rfl, rfl, rfl, rfl⟩

/-- A ruler worker's channel state: whether the done and terminated channels
were ever made.  newWorker in src/ruler/ruler.go constructs the worker with
only scheduler and ruler set, so both channels are Go nil channels. -/
structure RulerWorker where
  doneInit : Bool
  terminatedInit : Bool
deriving DecidableEq

/-- newWorker from src/ruler/ruler.go: no channel is made. -/
def newWorker : RulerWorker := { doneInit := false, terminatedInit := false }

/-- What a Stop call does: completes, faults with a Go run-time panic, or
blocks forever. -/
inductive StopOutcome where
  | ok
  | fault (msg : String)
  | blocked
deriving DecidableEq

/-- worker.Stop from src/ruler/ruler.go: close(done) — closing a nil channel
is a Go run-time panic — then receive on terminated, which blocks forever on
a nil channel and otherwise awaits the close issued when Run returns. -/
def workerStop (w : RulerWorker) : StopOutcome :=
  if w.doneInit = false then StopOutcome.fault ("close of nil channel")
  else if w.terminatedInit = false then StopOutcome.blocked
  else StopOutcome.ok

/-- The rules server: its worker pool.  The scheduler is an external
collaborator; scheduler.Stop (run after the workers stopped) is modelled as
completing. -/
structure RulerServer where
  workers : List RulerWorker
deriving DecidableEq

/-- NewServer from src/ruler/ruler.go: reject a non-positive worker count,
else make NumWorkers workers with newWorker. -/
def newServer (numWorkers : Int) : Except String RulerServer :=
  if numWorkers ≤ 0 then .error ("Must have at least 1 worker")
  else .ok { workers := List.replicate numWorkers.toNat newWorker }

/-- Server.Stop's loop over the workers: each worker is stopped in turn; the
first fault or block propagates. -/
def serverStopWorkers : List RulerWorker → StopOutcome
  | [] => StopOutcome.ok
  | w :: rest =>
    match workerStop w with
    | StopOutcome.ok => serverStopWorkers rest
    | out => out

/-- Server.Stop from src/ruler/ruler.go. -/
def serverStop (s : RulerServer) : StopOutcome := serverStopWorkers s.workers

/-- Claim C7 (code bug evaluation): on the server NewServer builds, Stop does
not complete without fault: newWorker leaves done and terminated as nil
channels, so the first worker's close(done) is a close of a nil channel, a
Go run-time panic (worker.Run's deferred close(terminated) would equally
panic).  The claim and the spec describe the intended graceful shutdown. -/
theorem server_stop_panics_on_nil_channel :
    newServer 1 = .ok { workers := [newWorker] }
    ∧ workerStop newWorker = StopOutcome.fault ("close of nil channel")
    ∧ serverStop { workers := [newWorker] } = StopOutcome.fault ("close of nil channel") :=
  ⟨rfl, rfl, rfl⟩

/-- A scheduler work item: the tenant and its due time (the rules list is
irrelevant to the claims). -/
structure WorkItem where
  userID : String
  dueAt : Int
deriving DecidableEq

/-- The observable actions of one worker loop iteration. -/
inductive WorkerEvent where
  | pop (item : WorkItem)
  | evalRules (item : WorkItem)
  | ack (item : WorkItem)
deriving DecidableEq

/-- worker.Run from src/ruler/ruler.go:151-169, as a function of the
successive nextWorkItem results (none = queue closed; the done-channel check
is covered by ending the script): pop, evaluate, and pop again — the loop
never calls workItemDone. -/
def workerRunRuler : List (Option WorkItem) → List WorkerEvent
  | [] => []
  | none :: _ => []
  | some it :: rest =>
    WorkerEvent.pop it :: WorkerEvent.evalRules it :: workerRunRuler rest

/-- worker.Run as embedded at src/chunk/chunk_store.go:777-796: identical
loop except that workItemDone(item) is called after Evaluate returns and
before the next pop. -/
def workerRunVariant : List (Option WorkItem) → List WorkerEvent
  | [] => []
  | none :: _ => []
  | some it :: rest =>
    WorkerEvent.pop it :: WorkerEvent.evalRules it :: WorkerEvent.ack it
      :: workerRunVariant rest

/-- A first work item for tenant A. -/
def itemA : WorkItem := { userID := "tenantA", dueAt := 0 }

/-- A second work item for tenant B. -/
def itemB : WorkItem := { userID := "tenantB", dueAt := 0 }

/-- The ruler.go worker loop emits no ack event for any item, ever. -/
theorem workerRunRuler_no_ack :
    ∀ (script : List (Option WorkItem)) (it : WorkItem),
      WorkerEvent.ack it ∉ workerRunRuler script := by
  intro script
  induction script with
  | nil => intro it h; simp [workerRunRuler] at h
  | cons x rest ih =>
    intro it h
    cases x with
    | none => simp [workerRunRuler] at h
    | some it2 =>
      simp only [workerRunRuler, List.mem_cons] at h
      rcases h with h | h | h
      · exact WorkerEvent.noConfusion h
      · exact WorkerEvent.noConfusion h
      · exact ih it h

/-- Claim C8 (code bug evaluation): given two work items and then queue
close, the worker loop of src/ruler/ruler.go evaluates both items but emits
no workItemDone ack at all — in particular none between evaluating the
first item and popping the second — while the worker.Run variant embedded
in src/chunk/chunk_store.go acks each item right after its evaluation and
before the next pop, as the claim and the spec describe. -/
theorem worker_run_ruler_never_acks :
    workerRunRuler [some itemA, some itemB, none]
        = [WorkerEvent.pop itemA, WorkerEvent.evalRules itemA,
           WorkerEvent.pop itemB, WorkerEvent.evalRules itemB]
    ∧ workerRunVariant [some itemA, some itemB, none]
        = [WorkerEvent.pop itemA, WorkerEvent.evalRules itemA, WorkerEvent.ack itemA,
           WorkerEvent.pop itemB, WorkerEvent.evalRules itemB, WorkerEvent.ack itemB] :=
  ⟨rfl, rfl⟩

end Cortex
